import Mathlib

/-!
# A verification of the SOM-dashboard pipeline

Shallow embedding of the data-wrangling and selection-sync logic of the
dashboard repository: the function scale_data of data_loader.py, the
functions assign_clusters and compute_cluster_means of cluster_analysis.py,
the node-record construction and U-Matrix color computation of
build_hex_plot in plots.py, the U-Matrix toggle callback, and the three
browser-side selection-sync callbacks of main.py.

Modelling conventions:
* pandas/geopandas frames are column-oriented association lists of rational
  columns (`DF`); floating point numbers are modelled as rationals, and a
  float computation whose value is undefined (division by zero) is modelled
  by `Option`.
* External library calls keep only their documented input/output behaviour:
  the winner function of MiniSom is an opaque function field,
  AgglomerativeClustering is a function parameter `hcFit`, StandardScaler
  is embedded columnwise (mean, population variance, and the zero-scale
  replacement rule of sklearn), and the numeric square root is a function
  parameter `sqrtFn`.
* Each browser-side CustomJS callback is embedded as one atomic state
  transition on the selection state; the re-firing of peer callbacks by the
  selection writes that a callback itself performs is not modelled.
-/

/-! ## The data-frame model -/

/-- Look up the first column with the given name in a column list. -/
def lookupCol : List (String × List ℚ) → String → Option (List ℚ)
  | [], _ => none
  | p :: t, c => if p.1 = c then some p.2 else lookupCol t c

/-- A pandas data frame of numeric columns, stored column-wise as an ordered
association list of (column name, column values).  Row `k` of the frame is
the `k`-th entry of every column. -/
structure DF where
  cols : List (String × List ℚ)
deriving DecidableEq

/-- The column names of a frame, in order (pandas `df.columns`). -/
def DF.colNames (df : DF) : List String := df.cols.map Prod.fst

/-- The values of column `c` (pandas `df[c]`); the first column of that name
wins, and a missing column reads as the empty list. -/
def DF.col (df : DF) (c : String) : List ℚ :=
  (lookupCol df.cols c).getD []

/-- The number of rows (length of the first column). -/
def DF.nrows (df : DF) : ℕ := ((df.cols.head?).map (fun p => p.2.length)).getD 0

/-- pandas `df.drop(columns=cs, errors="ignore")`. -/
def DF.dropCols (df : DF) (cs : List String) : DF :=
  ⟨df.cols.filter (fun p => ¬ p.1 ∈ cs)⟩

/-- pandas column assignment `df[c] = vs`: replace the column in place when
the name exists, append it at the end otherwise. -/
def DF.setCol (df : DF) (c : String) (vs : List ℚ) : DF :=
  if (lookupCol df.cols c).isSome then
    ⟨df.cols.map (fun p => if p.1 = c then (c, vs) else p)⟩
  else ⟨df.cols ++ [(c, vs)]⟩

/-- Row `k` of the frame in column order (row `k` of pandas `df.values`). -/
def DF.row (df : DF) (k : ℕ) : List ℚ := df.cols.map (fun p => p.2.getD k 0)

/-! ## data_loader.py : scale_data -/

/-- Arithmetic mean of a list (numpy mean; `0` on the empty list is never
relied upon). -/
def listMean (xs : List ℚ) : ℚ := xs.sum / xs.length

/-- Population variance (ddof = 0), as computed by sklearn StandardScaler. -/
def popVar (xs : List ℚ) : ℚ :=
  (xs.map (fun x => (x - listMean xs) ^ 2)).sum / xs.length

/-- One column of sklearn `StandardScaler.fit_transform`: subtract the mean
and divide by the standard deviation, where a zero standard deviation is
replaced by 1 (`sklearn.preprocessing._data._handle_zeros_in_scale`).
`sqrtFn` stands for the numeric square root of the library. -/
def scaleCol (sqrtFn : ℚ → ℚ) (xs : List ℚ) : List ℚ :=
  let m := listMean xs
  let s0 := sqrtFn (popVar xs)
  let s := if s0 = 0 then 1 else s0
  xs.map (fun x => (x - m) / s)

/-- A geopandas GeoDataFrame: its numeric attribute columns plus a geometry
column (opaque shape tokens). -/
structure GeoDF where
  df : DF
  geom : List String
deriving DecidableEq

/-- The full column list of a GeoDataFrame (`gdf.columns`): the attribute
columns plus the geometry column. -/
def GeoDF.columns (gdf : GeoDF) : List String := gdf.df.colNames ++ ["geometry"]

/-- Model of `data_loader.scale_data`: select the numeric columns minus the
excluded ones, standardize them with StandardScaler, copy any
`hex_x`/`hex_y` grid keys back in unscaled, and return the scaled frame
together with the original GeoDataFrame. -/
def scale_data (sqrtFn : ℚ → ℚ) (gdf : GeoDF) (excludeCols : List String := []) :
    DF × GeoDF :=
  let numeric := gdf.df.dropCols excludeCols
  let scaledDf : DF := ⟨numeric.cols.map (fun p => (p.1, scaleCol sqrtFn p.2))⟩
  let scaledDf := ["hex_x", "hex_y"].foldl
    (fun acc coord =>
      if coord ∈ gdf.columns then acc.setCol coord (gdf.df.col coord) else acc)
    scaledDf
  (scaledDf, gdf)

/-! ## cluster_analysis.py -/

/-- A trained MiniSom as consumed by the dashboard: the grid dimensions and
the node weight vectors already flattened row-major (node `(i, j)` at index
`i * yDim + j`, exactly `get_weights().reshape(x_dim * y_dim, -1)`),
together with the `winner` (best-matching-unit) function of the library,
kept opaque. -/
structure MiniSomM where
  xDim : ℕ
  yDim : ℕ
  weights : List (List ℚ)
  winner : List ℚ → ℕ × ℕ

/-- The node clustering computed in `assign_clusters`:
`AgglomerativeClustering(n_clusters=n).fit_predict(flat_weights)`, with the
external clustering algorithm abstracted as `hcFit`. -/
def assign_node_labels (hcFit : ℕ → List (List ℚ) → List ℤ) (som : MiniSomM)
    (nClusters : ℕ) : List ℤ :=
  hcFit nClusters som.weights

/-- Model of `cluster_analysis.assign_clusters`: cluster the node weights of
the SOM, find the best matching unit of each observation, and append
`bmu_x`, `bmu_y` and `hc_cluster` (the node label of the BMU) to the data
frame. -/
def assign_clusters (hcFit : ℕ → List (List ℚ) → List ℤ) (som : MiniSomM)
    (dataDf : DF) (nClusters : ℕ := 5) : DF :=
  let nodeLabels := assign_node_labels hcFit som nClusters
  let features := dataDf.dropCols ["hex_x", "hex_y"]
  let values := (List.range features.nrows).map features.row
  let bmus := values.map som.winner
  let bmuX := bmus.map (fun p => ((p.1 : ℤ) : ℚ))
  let bmuY := bmus.map (fun p => ((p.2 : ℤ) : ℚ))
  let flatIdx := bmus.map (fun p => p.1 * som.yDim + p.2)
  let clusters := flatIdx.map (fun idx => ((nodeLabels.getD idx 0 : ℤ) : ℚ))
  ((dataDf.setCol "bmu_x" bmuX).setCol "bmu_y" bmuY).setCol "hc_cluster" clusters

/-- The bookkeeping columns excluded from the per-cluster means. -/
def bookkeepingCols : List String :=
  ["hc_cluster", "bmu_x", "bmu_y", "hex_x", "hex_y"]

/-- One pass over (key, value) pairs accumulating the sum and the count of
the values whose key is `k` — the per-group aggregation behind pandas
`groupby('hc_cluster')[numeric_cols].mean()`. -/
def sumCountFor (k : ℚ) : List (ℚ × ℚ) → ℚ × ℕ
  | [] => (0, 0)
  | p :: t =>
    let r := sumCountFor k t
    if p.1 = k then (r.1 + p.2, r.2 + 1) else r

/-- Model of `cluster_analysis.compute_cluster_means`: take every numeric
column not in the bookkeeping set, group the rows by `hc_cluster` (distinct
ids in ascending order, as pandas `groupby(sort=True)`), average each
column per group, and put `hc_cluster` back as the first column
(`reset_index`). -/
def compute_cluster_means (hexDf : DF) : DF :=
  let numericCols := hexDf.colNames.filter (fun c => ¬ c ∈ bookkeepingCols)
  let keys := hexDf.col "hc_cluster"
  let sortedKeys := List.insertionSort (· ≤ ·) keys.dedup
  ⟨("hc_cluster", sortedKeys) ::
    numericCols.map (fun c =>
      (c, sortedKeys.map (fun k =>
        let sc := sumCountFor k (keys.zip (hexDf.col c))
        sc.1 / (sc.2 : ℚ))))⟩

/-- A concrete observation frame used by the aggregation witness. -/
def dfW : DF := ⟨[("hc_cluster", [1, 0, 1]), ("bmu_x", [0, 0, 0]), ("val", [2, 4, 6])]⟩

/-! ## plots.py : build_hex_plot -/

/-- numpy `.min()` of a flat array (never called on empty input). -/
def listMin : List ℚ → ℚ
  | [] => 0
  | h :: t => t.foldl min h

/-- numpy `.max()` of a flat array (never called on empty input). -/
def listMax : List ℚ → ℚ
  | [] => 0
  | h :: t => t.foldl max h

/-- Python `int(...)` on a float: truncation toward zero. -/
def pyInt (q : ℚ) : ℤ := if 0 ≤ q then ⌊q⌋ else ⌈q⌉

/-- The `u_color` palette index computed per node in `build_hex_plot`:
`int((d - um_min) / (um_max - um_min) * 255)`.  The value `none` models the
float division by zero that occurs when the U-Matrix is constant. -/
def umNormIdx (umFlat : List ℚ) (d : ℚ) : Option ℤ :=
  let umMin := listMin umFlat
  let umMax := listMax umFlat
  if umMax - umMin = 0 then none
  else some (pyInt ((d - umMin) / (umMax - umMin) * 255))

/-- The per-node records `(bmu_x, bmu_y, hc_cluster)` built row-major by the
record loop of `build_hex_plot`, for a given list of node labels. -/
def nodesWithLabels (som : MiniSomM) (nodeLabels : List ℤ) : List (ℕ × ℕ × ℤ) :=
  ((List.range som.xDim).map (fun i =>
    (List.range som.yDim).map (fun j =>
      (i, j, nodeLabels.getD (i * som.yDim + j) 0)))).flatten

/-- The cluster count recomputed inside `build_hex_plot`:
`int(hex_df['hc_cluster'].max()) + 1`. -/
def build_hex_plot_nClusters (hexDf : DF) : ℕ :=
  (pyInt (listMax (hexDf.col "hc_cluster"))).toNat + 1

/-- The node records of `build_hex_plot`: it re-runs AgglomerativeClustering
on the flattened node weights with
`n_clusters = int(hex_df['hc_cluster'].max()) + 1` and colors the nodes
with the labels of this second clustering, instead of reusing the labels
computed by `assign_clusters`. -/
def build_hex_plot_nodes (hcFit : ℕ → List (List ℚ) → List ℤ) (som : MiniSomM)
    (hexDf : DF) : List (ℕ × ℕ × ℤ) :=
  nodesWithLabels som (hcFit (build_hex_plot_nClusters hexDf) som.weights)

/-- A clustering function consistent with agglomerative clustering of six
equally spaced 1-D weight vectors: with `n` clusters the first `n - 1`
points are singleton clusters and the remaining points form one cluster
(exactly `min n 6` distinct labels, as
`AgglomerativeClustering(n_clusters=n).fit_predict` guarantees). -/
def hcFitEx (n : ℕ) (pts : List (List ℚ)) : List ℤ :=
  (List.range pts.length).map (fun i => min (i : ℤ) ((n : ℤ) - 1))

/-- A 2×3 map over six 1-D weight vectors whose winner function always
answers node (0, 0). -/
def somEx : MiniSomM := ⟨2, 3, [[0], [10], [20], [30], [40], [50]], fun _ => (0, 0)⟩

/-- A single observation, so only cluster 0 receives an observation. -/
def dataEx : DF := ⟨[("f1", [0])]⟩

/-! ## main.py / plots.py : selection state, toggle, callbacks -/

/-- The selection state of the three linked views: the selected indices of
the hex (per-node) source, the map (per-region) source, and the summary
table source. -/
structure SelState where
  hexSel : List ℕ
  mapSel : List ℕ
  tableSel : List ℕ
deriving DecidableEq

/-- The per-node display state of the hex figure: the active color field
`display_color`, the two precomputed color arrays, the two color-bar
visibilities, and the selection state of the three sources. -/
structure HexPlotState where
  displayColor : List String
  color : List String
  uColor : List String
  barCVisible : Bool
  barUVisible : Bool
  sel : SelState
deriving DecidableEq

/-- The U-Matrix toggle callback of `build_hex_plot`: copy the precomputed
`u_color` (toggle on) or `color` (toggle off) array into `display_color`
and swap the two color-bar visibilities. -/
def umToggleChange (active : Bool) (st : HexPlotState) : HexPlotState :=
  let colors := if active then st.uColor else st.color
  { st with displayColor := colors, barCVisible := !active, barUVisible := active }

/-- A concrete hex display state whose active colors are the cluster
colors. -/
def hexStW : HexPlotState :=
  ⟨["#1f77b4"], ["#1f77b4"], ["#440154"], true, false, ⟨[], [], []⟩⟩

/-- The cluster-button callback (main.py block 6a) for button `cl`: if the
table selection is exactly `[cl]`, clear all three selections; otherwise
select every hex row and every map row whose `hc_cluster` is `cl` and table
row `cl`. -/
def clusterButtonClick (hexClusters mapClusters : List ℕ) (cl : ℕ)
    (s : SelState) : SelState :=
  if s.tableSel.length = 1 ∧ s.tableSel.getD 0 0 = cl then
    ⟨[], [], []⟩
  else
    ⟨(List.range hexClusters.length).filter (fun j => hexClusters.getD j 0 = cl),
      (List.range mapClusters.length).filter (fun j => mapClusters.getD j 0 = cl),
      [cl]⟩

/-- Static per-node and per-region data consulted by the selection-sync
callbacks: BMU coordinates and cluster ids of the hex source rows and of
the map source rows. -/
structure LinkCtx where
  hexBmuX : List ℕ
  hexBmuY : List ℕ
  hexClusters : List ℕ
  mapBmuX : List ℕ
  mapBmuY : List ℕ
  mapClusters : List ℕ
deriving DecidableEq

/-- The full selection-sync state: the three selections plus the one-shot
skip flags and last-selected indices (`_skip`, `_last_sel`) stored on the
hex and map sources (initially unset, modelled `false` / `none`). -/
structure LinkState where
  hexSel : List ℕ
  mapSel : List ℕ
  tableSel : List ℕ
  hexSkip : Bool
  hexLast : Option ℕ
  mapSkip : Bool
  mapLast : Option ℕ
deriving DecidableEq

/-- The hex-source selection-change callback (main.py block 6b), running
after the hex selection has already changed to `s.hexSel`: consume the
one-shot skip flag; on a repeated single selection clear everything and arm
the skip flag; record the last selected index; on an empty selection clear
the dependents; on a single selection select the regions with the same BMU
coordinates and the cluster row of the node; otherwise do nothing. -/
def hexSelChange (ctx : LinkCtx) (s : LinkState) : LinkState :=
  if s.hexSkip then { s with hexSkip := false }
  else if s.hexSel.length = 1 ∧ s.hexLast = some (s.hexSel.getD 0 0) then
    { s with hexSel := [], mapSel := [], tableSel := [],
             hexSkip := true, hexLast := none }
  else if s.hexSel.length = 0 then
    { s with mapSel := [], tableSel := [], hexLast := none }
  else if s.hexSel.length = 1 then
    { s with
      mapSel := (List.range ctx.mapBmuX.length).filter (fun i =>
        ctx.mapBmuX.getD i 0 = ctx.hexBmuX.getD (s.hexSel.getD 0 0) 0 ∧
        ctx.mapBmuY.getD i 0 = ctx.hexBmuY.getD (s.hexSel.getD 0 0) 0),
      tableSel := [ctx.hexClusters.getD (s.hexSel.getD 0 0) 0],
      hexLast := some (s.hexSel.getD 0 0) }
  else { s with hexLast := none }

/-- The map-source selection-change callback (main.py block 6c), symmetric
to `hexSelChange`; the hex row is the first one with matching BMU
coordinates (the JS loop breaks at the first hit), or no row when none
matches. -/
def mapSelChange (ctx : LinkCtx) (s : LinkState) : LinkState :=
  if s.mapSkip then { s with mapSkip := false }
  else if s.mapSel.length = 1 ∧ s.mapLast = some (s.mapSel.getD 0 0) then
    { s with mapSel := [], hexSel := [], tableSel := [],
             mapSkip := true, mapLast := none }
  else if s.mapSel.length = 0 then
    { s with hexSel := [], tableSel := [], mapLast := none }
  else if s.mapSel.length = 1 then
    { s with
      hexSel :=
        match (List.range ctx.hexBmuX.length).find? (fun i =>
          ctx.hexBmuX.getD i 0 = ctx.mapBmuX.getD (s.mapSel.getD 0 0) 0 ∧
          ctx.hexBmuY.getD i 0 = ctx.mapBmuY.getD (s.mapSel.getD 0 0) 0) with
        | some i => [i]
        | none => [],
      tableSel := [ctx.mapClusters.getD (s.mapSel.getD 0 0) 0],
      mapLast := some (s.mapSel.getD 0 0) }
  else { s with mapLast := none }

/-- A concrete link context: one hex node with BMU (1, 2) and cluster 3;
two regions, the first with BMU (1, 2) and the second with BMU (1, 9). -/
def ctxW : LinkCtx := ⟨[1], [2], [3], [1, 1], [2, 9], [3, 3]⟩

/-- A concrete state in which hex node 0 was just selected for the first
time. -/
def stW : LinkState := ⟨[0], [], [], false, none, false, none⟩

/-- A concrete state with a multi-selection in both the hex and the map
view. -/
def stMulti : LinkState := ⟨[0, 1], [2, 3], [4], false, none, false, none⟩

/-! ## Lemmas about the data-frame model -/

theorem lookupCol_replace (cols : List (String × List ℚ)) (c : String) (vs : List ℚ) :
    lookupCol (cols.map (fun p => if p.1 = c then (c, vs) else p)) c =
      (lookupCol cols c).map (fun _ => vs) := by
  induction cols with
  | nil => rfl
  | cons p t ih =>
    by_cases hp : p.1 = c
    · simp [lookupCol, hp]
    · simp only [List.map_cons, if_neg hp, lookupCol, ih]

theorem lookupCol_replace_ne (cols : List (String × List ℚ)) (c c' : String)
    (vs : List ℚ) (h : c' ≠ c) :
    lookupCol (cols.map (fun p => if p.1 = c then (c, vs) else p)) c' =
      lookupCol cols c' := by
  induction cols with
  | nil => rfl
  | cons p t ih =>
    by_cases hp : p.1 = c
    · have h1 : ¬ (c = c') := fun hh => h hh.symm
      have h2 : ¬ (p.1 = c') := by rw [hp]; exact h1
      simp only [List.map_cons, if_pos hp, lookupCol, if_neg h1, if_neg h2, ih]
    · simp only [List.map_cons, if_neg hp, lookupCol, ih]

theorem lookupCol_append_single (cols : List (String × List ℚ)) (c : String)
    (vs : List ℚ) :
    lookupCol (cols ++ [(c, vs)]) c =
      ((lookupCol cols c).orElse (fun _ => some vs)) := by
  induction cols with
  | nil => simp [lookupCol]
  | cons p t ih =>
    by_cases hp : p.1 = c
    · simp [lookupCol, hp]
    · simp only [List.cons_append, lookupCol, if_neg hp]
      simpa using ih

theorem lookupCol_append_single_ne (cols : List (String × List ℚ)) (c c' : String)
    (vs : List ℚ) (h : c' ≠ c) :
    lookupCol (cols ++ [(c, vs)]) c' = lookupCol cols c' := by
  induction cols with
  | nil => simp [lookupCol, Ne.symm h]
  | cons p t ih =>
    by_cases hp : p.1 = c'
    · simp [lookupCol, hp]
    · simp only [List.cons_append, lookupCol, if_neg hp]
      simpa using ih

/-- Reading back a just-assigned column yields the assigned values. -/
theorem DF.col_setCol_self (df : DF) (c : String) (vs : List ℚ) :
    (df.setCol c vs).col c = vs := by
  unfold DF.setCol DF.col
  split
  · rename_i hfound
    simp only [lookupCol_replace]
    cases h : lookupCol df.cols c with
    | none => rw [h] at hfound; simp at hfound
    | some x => simp
  · simp [lookupCol_append_single]
    cases h : lookupCol df.cols c with
    | none => simp [Option.orElse]
    | some x => rename_i hnone; rw [h] at hnone; simp at hnone

/-- Assigning one column leaves every other column unchanged. -/
theorem DF.col_setCol_ne (df : DF) (c c' : String) (vs : List ℚ) (h : c' ≠ c) :
    (df.setCol c vs).col c' = df.col c' := by
  unfold DF.setCol DF.col
  split
  · rw [lookupCol_replace_ne _ _ _ _ h]
  · rw [lookupCol_append_single_ne _ _ _ _ h]

/-- Dropping columns other than `c` does not change column `c`. -/
theorem DF.col_dropCols (df : DF) (cs : List String) (c : String) (h : ¬ c ∈ cs) :
    (df.dropCols cs).col c = df.col c := by
  unfold DF.dropCols DF.col
  congr 1
  induction df.cols with
  | nil => rfl
  | cons p t ih =>
    by_cases hmem : p.1 ∈ cs
    · have hp : ¬ (p.1 = c) := fun hh => h (hh ▸ hmem)
      simp only [List.filter_cons, decide_not]
      rw [if_neg (by simpa using hmem),
        show lookupCol (p :: t) c = lookupCol t c by simp [lookupCol, hp]]
      simpa using ih
    · simp only [List.filter_cons, decide_not]
      rw [if_pos (by simpa using hmem)]
      by_cases hp : p.1 = c
      · simp [lookupCol, hp]
      · simp only [lookupCol, if_neg hp]
        simpa using ih

theorem lookupCol_scaled (cols : List (String × List ℚ)) (g : ℚ → ℚ) (c : String) :
    lookupCol (cols.map (fun p => (p.1, scaleCol g p.2))) c =
      (lookupCol cols c).map (scaleCol g) := by
  induction cols with
  | nil => rfl
  | cons p t ih =>
    by_cases hp : p.1 = c
    · simp [lookupCol, hp]
    · simp only [List.map_cons, lookupCol, if_neg hp, ih]

theorem lookupCol_filter (cols : List (String × List ℚ)) (cs : List String)
    (c : String) (h : ¬ c ∈ cs) :
    lookupCol (cols.filter (fun p => ¬ p.1 ∈ cs)) c = lookupCol cols c := by
  induction cols with
  | nil => rfl
  | cons p t ih =>
    by_cases hmem : p.1 ∈ cs
    · have hp : ¬ (p.1 = c) := fun hh => h (hh ▸ hmem)
      simp only [List.filter_cons, decide_not]
      rw [if_neg (by simpa using hmem),
        show lookupCol (p :: t) c = lookupCol t c by simp [lookupCol, hp]]
      simpa using ih
    · simp only [List.filter_cons, decide_not]
      rw [if_pos (by simpa using hmem)]
      by_cases hp : p.1 = c
      · simp [lookupCol, hp]
      · simp only [lookupCol, if_neg hp]
        simpa using ih

/-! ## Lemmas about scaling a constant column -/

/-- The sum of a constant list is its length times the value. -/
theorem sum_of_const (xs : List ℚ) (v : ℚ) (h : ∀ x ∈ xs, x = v) :
    xs.sum = xs.length * v := by
  induction xs with
  | nil => simp
  | cons x t ih =>
    have hx : x = v := h x (by simp)
    have ht : ∀ y ∈ t, y = v := fun y hy => h y (by simp [hy])
    simp only [List.sum_cons, List.length_cons, ih ht, hx]
    push_cast
    ring

theorem listMean_const (xs : List ℚ) (v : ℚ) (hne : xs ≠ [])
    (h : ∀ x ∈ xs, x = v) : listMean xs = v := by
  have h0 : xs.length ≠ 0 := by simpa using hne
  have hlen : (xs.length : ℚ) ≠ 0 := Nat.cast_ne_zero.mpr h0
  unfold listMean
  rw [sum_of_const xs v h, mul_comm, mul_div_assoc, div_self hlen, mul_one]

/-- The function `scaleCol` with its local bindings unfolded. -/
theorem scaleCol_eq (g : ℚ → ℚ) (xs : List ℚ) :
    scaleCol g xs =
      xs.map (fun x =>
        (x - listMean xs) / (if g (popVar xs) = 0 then 1 else g (popVar xs))) := rfl

theorem scaleCol_const (g : ℚ → ℚ) (xs : List ℚ) (v : ℚ) (hne : xs ≠ [])
    (h : ∀ x ∈ xs, x = v) (hg : g 0 = 0) :
    scaleCol g xs = List.replicate xs.length 0 := by
  have hmean : listMean xs = v := listMean_const xs v hne h
  have hvar : popVar xs = 0 := by
    unfold popVar
    rw [hmean]
    have : xs.map (fun x => (x - v) ^ 2) = List.replicate xs.length 0 := by
      rw [List.eq_replicate_iff]
      constructor
      · simp
      · intro b hb
        rcases List.mem_map.mp hb with ⟨x, hx, hxb⟩
        rw [h x hx] at hxb
        simpa using hxb.symm
    rw [this]
    simp
  rw [scaleCol_eq, hvar, hg, if_pos rfl, hmean, List.eq_replicate_iff]
  constructor
  · simp
  · intro b hb
    rcases List.mem_map.mp hb with ⟨x, hx, hxb⟩
    rw [h x hx] at hxb
    simpa using hxb.symm

/-! ## C3 and C9 : scale_data -/

/-- C3: for every input table containing a numeric column whose values are
all equal (zero variance), `scale_data` outputs a defined constant for that
column — all zeros — and never propagates an undefined value into the
returned standardized table.  The division that the spec worries about
never happens: StandardScaler replaces a zero scale by 1
(`_handle_zeros_in_scale`), so each entry becomes `(v - v) / 1 = 0`. -/
theorem scale_data_zero_variance (sqrtFn : ℚ → ℚ) (gdf : GeoDF)
    (excludeCols : List String) (c : String) (v : ℚ)
    (hg : sqrtFn 0 = 0)
    (hexc : ¬ c ∈ excludeCols)
    (hcx : c ≠ "hex_x") (hcy : c ≠ "hex_y")
    (hne : gdf.df.col c ≠ [])
    (hconst : ∀ x ∈ gdf.df.col c, x = v) :
    (scale_data sqrtFn gdf excludeCols).1.col c =
      List.replicate (gdf.df.col c).length 0 := by
  have hstep : ∀ (acc : DF) (coord : String), c ≠ coord →
      (if coord ∈ gdf.columns then acc.setCol coord (gdf.df.col coord) else acc).col c
        = acc.col c := by
    intro acc coord hcc
    split
    · exact DF.col_setCol_ne acc coord c _ hcc
    · rfl
  unfold scale_data
  simp only [List.foldl_cons, List.foldl_nil]
  rw [hstep _ "hex_y" hcy, hstep _ "hex_x" hcx]
  have hcol : (DF.mk ((gdf.df.dropCols excludeCols).cols.map
      (fun p => (p.1, scaleCol sqrtFn p.2)))).col c
      = scaleCol sqrtFn (gdf.df.col c) := by
    unfold DF.col
    rw [show (gdf.df.dropCols excludeCols).cols
        = gdf.df.cols.filter (fun p => ¬ p.1 ∈ excludeCols) from rfl]
    rw [lookupCol_scaled, lookupCol_filter _ _ _ hexc]
    cases hl : lookupCol gdf.df.cols c with
    | none =>
      exfalso
      apply hne
      unfold DF.col
      rw [hl]
      rfl
    | some xs => simp
  rw [hcol]
  exact scaleCol_const sqrtFn _ v hne hconst hg

/-- C3 witness: a frame with one constant column `[3, 3]` scales to
`[0, 0]`. -/
theorem scale_data_zero_variance_witness :
    ((fun _ => (0 : ℚ)) 0 = 0) ∧
    ((GeoDF.mk ⟨[("a", [3, 3])]⟩ ["g"]).df.col "a" ≠ []) ∧
    (∀ x ∈ (GeoDF.mk ⟨[("a", [3, 3])]⟩ ["g"]).df.col "a", x = 3) ∧
    (scale_data (fun _ => (0 : ℚ)) (GeoDF.mk ⟨[("a", [3, 3])]⟩ ["g"]) []).1.col "a" =
      List.replicate ((GeoDF.mk ⟨[("a", [3, 3])]⟩ ["g"]).df.col "a").length 0 :=
  ⟨rfl, by decide, by decide,
    scale_data_zero_variance (fun _ => (0 : ℚ)) (GeoDF.mk ⟨[("a", [3, 3])]⟩ ["g"])
      [] "a" 3 rfl (by decide) (by decide) (by decide) (by decide) (by decide)⟩

/-- C9: `scale_data` returns the original geometry table unchanged, and the
grid-key columns `hex_x`/`hex_y` present in the input appear in the
returned standardized table with their original, unscaled values. -/
theorem scale_data_geo_passthrough (sqrtFn : ℚ → ℚ) (gdf : GeoDF)
    (excludeCols : List String)
    (hx : "hex_x" ∈ gdf.df.colNames) (hy : "hex_y" ∈ gdf.df.colNames) :
    (scale_data sqrtFn gdf excludeCols).2 = gdf ∧
    (scale_data sqrtFn gdf excludeCols).1.col "hex_x" = gdf.df.col "hex_x" ∧
    (scale_data sqrtFn gdf excludeCols).1.col "hex_y" = gdf.df.col "hex_y" := by
  have hxc : "hex_x" ∈ gdf.columns := List.mem_append_left _ hx
  have hyc : "hex_y" ∈ gdf.columns := List.mem_append_left _ hy
  refine ⟨rfl, ?_, ?_⟩
  · unfold scale_data
    simp only [List.foldl_cons, List.foldl_nil]
    rw [if_pos hyc]
    rw [DF.col_setCol_ne _ _ _ _ (by decide)]
    rw [if_pos hxc, DF.col_setCol_self]
  · unfold scale_data
    simp only [List.foldl_cons, List.foldl_nil]
    rw [if_pos hyc, DF.col_setCol_self]

/-- C9 witness: a concrete frame with both grid-key columns. -/
theorem scale_data_geo_passthrough_witness :
    ("hex_x" ∈ (GeoDF.mk ⟨[("hex_x", [1]), ("hex_y", [2]), ("a", [5])]⟩ ["g"]).df.colNames) ∧
    ("hex_y" ∈ (GeoDF.mk ⟨[("hex_x", [1]), ("hex_y", [2]), ("a", [5])]⟩ ["g"]).df.colNames) ∧
    ((scale_data (fun _ => 0) (GeoDF.mk ⟨[("hex_x", [1]), ("hex_y", [2]), ("a", [5])]⟩ ["g"]) []).2
        = GeoDF.mk ⟨[("hex_x", [1]), ("hex_y", [2]), ("a", [5])]⟩ ["g"] ∧
      (scale_data (fun _ => 0) (GeoDF.mk ⟨[("hex_x", [1]), ("hex_y", [2]), ("a", [5])]⟩ ["g"]) []).1.col "hex_x"
        = (GeoDF.mk ⟨[("hex_x", [1]), ("hex_y", [2]), ("a", [5])]⟩ ["g"]).df.col "hex_x" ∧
      (scale_data (fun _ => 0) (GeoDF.mk ⟨[("hex_x", [1]), ("hex_y", [2]), ("a", [5])]⟩ ["g"]) []).1.col "hex_y"
        = (GeoDF.mk ⟨[("hex_x", [1]), ("hex_y", [2]), ("a", [5])]⟩ ["g"]).df.col "hex_y") :=
  ⟨by decide, by decide,
    scale_data_geo_passthrough (fun _ => 0)
      (GeoDF.mk ⟨[("hex_x", [1]), ("hex_y", [2]), ("a", [5])]⟩ ["g"]) []
      (by decide) (by decide)⟩

/-! ## C1 : assign_clusters -/

/-- C1: for every observation row given to `assign_clusters`, the returned
`hc_cluster` value equals the label that the node clustering assigns to the
BMU of the observation: with BMU coordinates `(i, j)` and grid width
`yDim`, `hc_cluster = node_labels[i * yDim + j]` where `node_labels` is the
agglomerative clustering of the flattened row-major node weights. -/
theorem assign_clusters_inherits_bmu_label
    (hcFit : ℕ → List (List ℚ) → List ℤ) (som : MiniSomM) (dataDf : DF)
    (nClusters : ℕ) (k : ℕ)
    (hk : k < (dataDf.dropCols ["hex_x", "hex_y"]).nrows) :
    ((assign_clusters hcFit som dataDf nClusters).col "bmu_x").getD k 0
        = (((som.winner ((dataDf.dropCols ["hex_x", "hex_y"]).row k)).1 : ℤ) : ℚ) ∧
    ((assign_clusters hcFit som dataDf nClusters).col "bmu_y").getD k 0
        = (((som.winner ((dataDf.dropCols ["hex_x", "hex_y"]).row k)).2 : ℤ) : ℚ) ∧
    ((assign_clusters hcFit som dataDf nClusters).col "hc_cluster").getD k 0
        = (((assign_node_labels hcFit som nClusters).getD
            ((som.winner ((dataDf.dropCols ["hex_x", "hex_y"]).row k)).1 * som.yDim
              + (som.winner ((dataDf.dropCols ["hex_x", "hex_y"]).row k)).2) 0 : ℤ) : ℚ) := by
  unfold assign_clusters
  rw [DF.nrows] at hk
  refine ⟨?_, ?_, ?_⟩
  · rw [DF.col_setCol_ne _ _ _ _ (by decide), DF.col_setCol_ne _ _ _ _ (by decide),
      DF.col_setCol_self]
    rw [List.getD_eq_getElem?_getD]
    simp [List.getElem?_map, List.getElem?_range, hk, DF.nrows]
  · rw [DF.col_setCol_ne _ _ _ _ (by decide), DF.col_setCol_self]
    rw [List.getD_eq_getElem?_getD]
    simp [List.getElem?_map, List.getElem?_range, hk, DF.nrows]
  · rw [DF.col_setCol_self]
    rw [List.getD_eq_getElem?_getD]
    simp [List.getElem?_map, List.getElem?_range, hk, DF.nrows]

/-- C1 witness: a 1×1 map with one feature column of two observations. -/
theorem assign_clusters_inherits_bmu_label_witness :
    (0 < ((DF.mk [("a", [1, 2])]).dropCols ["hex_x", "hex_y"]).nrows) ∧
    (((assign_clusters (fun _ _ => [7]) (MiniSomM.mk 1 1 [[0]] (fun _ => (0, 0)))
          (DF.mk [("a", [1, 2])]) 5).col "bmu_x").getD 0 0
        = ((((MiniSomM.mk 1 1 [[0]] (fun _ => (0, 0))).winner
            (((DF.mk [("a", [1, 2])]).dropCols ["hex_x", "hex_y"]).row 0)).1 : ℤ) : ℚ) ∧
      ((assign_clusters (fun _ _ => [7]) (MiniSomM.mk 1 1 [[0]] (fun _ => (0, 0)))
          (DF.mk [("a", [1, 2])]) 5).col "bmu_y").getD 0 0
        = ((((MiniSomM.mk 1 1 [[0]] (fun _ => (0, 0))).winner
            (((DF.mk [("a", [1, 2])]).dropCols ["hex_x", "hex_y"]).row 0)).2 : ℤ) : ℚ) ∧
      ((assign_clusters (fun _ _ => [7]) (MiniSomM.mk 1 1 [[0]] (fun _ => (0, 0)))
          (DF.mk [("a", [1, 2])]) 5).col "hc_cluster").getD 0 0
        = (((assign_node_labels (fun _ _ => [7]) (MiniSomM.mk 1 1 [[0]] (fun _ => (0, 0))) 5).getD
            (((MiniSomM.mk 1 1 [[0]] (fun _ => (0, 0))).winner
                (((DF.mk [("a", [1, 2])]).dropCols ["hex_x", "hex_y"]).row 0)).1
                * (MiniSomM.mk 1 1 [[0]] (fun _ => (0, 0))).yDim
              + ((MiniSomM.mk 1 1 [[0]] (fun _ => (0, 0))).winner
                (((DF.mk [("a", [1, 2])]).dropCols ["hex_x", "hex_y"]).row 0)).2) 0 : ℤ) : ℚ)) :=
  ⟨by decide,
    assign_clusters_inherits_bmu_label (fun _ _ => [7])
      (MiniSomM.mk 1 1 [[0]] (fun _ => (0, 0))) (DF.mk [("a", [1, 2])]) 5 0 (by decide)⟩

/-! ## C4 : compute_cluster_means -/

theorem sumCountFor_eq_filter (k : ℚ) (l : List (ℚ × ℚ)) :
    sumCountFor k l =
      (((l.filter (fun p => p.1 = k)).map Prod.snd).sum,
        ((l.filter (fun p => p.1 = k)).map Prod.snd).length) := by
  induction l with
  | nil => rfl
  | cons p t ih =>
    by_cases hp : p.1 = k
    · have h1 : sumCountFor k (p :: t)
          = ((sumCountFor k t).1 + p.2, (sumCountFor k t).2 + 1) := by
        simp [sumCountFor, hp]
      have h2 : (p :: t).filter (fun p => p.1 = k)
          = p :: t.filter (fun p => p.1 = k) := by
        simp [List.filter_cons, hp]
      rw [h1, h2, ih]
      simp [add_comm]
    · have h1 : sumCountFor k (p :: t) = sumCountFor k t := by
        simp [sumCountFor, hp]
      have h2 : (p :: t).filter (fun p => p.1 = k)
          = t.filter (fun p => p.1 = k) := by
        simp [List.filter_cons, hp]
      rw [h1, h2, ih]

theorem lookupCol_tagged (ns : List String) (g : String → List ℚ) (c : String) :
    lookupCol (ns.map (fun c' => (c', g c'))) c =
      if c ∈ ns then some (g c) else none := by
  induction ns with
  | nil => rfl
  | cons n t ih =>
    by_cases hn : n = c
    · simp [lookupCol, hn]
    · have hmem : (c ∈ t) ↔ (c ∈ n :: t) := by
        simp only [List.mem_cons]
        constructor
        · intro h; exact Or.inr h
        · rintro (h | h)
          · exact absurd h.symm hn
          · exact h
      simp only [List.map_cons, lookupCol, if_neg hn, ih]
      exact if_congr hmem rfl rfl

theorem map_fst_tagged {α : Type} (ns : List String) (g : String → α) :
    List.map (Prod.fst ∘ fun c => (c, g c)) ns = ns := by
  induction ns with
  | nil => rfl
  | cons n t ih => simp only [List.map_cons, Function.comp_apply, ih]

theorem sorted_lt_of_sorted_le_nodup (l : List ℚ)
    (hs : List.Sorted (· ≤ ·) l) (hn : l.Nodup) : List.Sorted (· < ·) l :=
  (hs.and hn).imp (fun h => lt_of_le_of_ne h.1 h.2)

/-- C4: `compute_cluster_means` returns exactly one row per distinct
cluster id present among the observations, sorted ascending; the value of
each row for each numeric feature column is the arithmetic mean of that
column over exactly the observations with that cluster id; the bookkeeping
columns `hc_cluster`, `bmu_x`, `bmu_y`, `hex_x`, `hex_y` are excluded from
the averaged columns. -/
theorem compute_cluster_means_spec (hexDf : DF) :
    List.Sorted (· < ·) ((compute_cluster_means hexDf).col "hc_cluster") ∧
    (∀ k : ℚ, k ∈ (compute_cluster_means hexDf).col "hc_cluster" ↔
        k ∈ hexDf.col "hc_cluster") ∧
    ((compute_cluster_means hexDf).colNames
        = "hc_cluster" :: hexDf.colNames.filter (fun c => ¬ c ∈ bookkeepingCols)) ∧
    (∀ b ∈ bookkeepingCols, b ≠ "hc_cluster" →
        ¬ b ∈ (compute_cluster_means hexDf).colNames) ∧
    (∀ c ∈ hexDf.colNames.filter (fun c => ¬ c ∈ bookkeepingCols),
      (compute_cluster_means hexDf).col c =
        ((compute_cluster_means hexDf).col "hc_cluster").map (fun k =>
          listMean ((((hexDf.col "hc_cluster").zip (hexDf.col c)).filter
            (fun p => p.1 = k)).map Prod.snd))) := by
  have hkeycol : (compute_cluster_means hexDf).col "hc_cluster" =
      List.insertionSort (· ≤ ·) (hexDf.col "hc_cluster").dedup := by
    unfold compute_cluster_means DF.col
    simp [lookupCol]
  have hperm : (List.insertionSort (· ≤ ·) (hexDf.col "hc_cluster").dedup).Perm
      (hexDf.col "hc_cluster").dedup := List.perm_insertionSort _ _
  refine ⟨?_, ?_, ?_, ?_, ?_⟩
  · rw [hkeycol]
    refine sorted_lt_of_sorted_le_nodup _ (List.sorted_insertionSort _ _) ?_
    exact hperm.nodup_iff.mpr (List.nodup_dedup _)
  · intro k
    rw [hkeycol, hperm.mem_iff, List.mem_dedup]
  · unfold compute_cluster_means DF.colNames
    simp only [List.map_cons, List.map_map]
    rw [map_fst_tagged]
  · intro b hb hbne hmem
    unfold compute_cluster_means DF.colNames at hmem
    simp only [List.map_cons, List.map_map, List.mem_cons] at hmem
    rcases hmem with h | h
    · exact hbne h
    · rw [map_fst_tagged] at h
      rcases List.mem_filter.mp h with ⟨_, hcnb⟩
      have : ¬ b ∈ bookkeepingCols := by simpa using hcnb
      exact this hb
  · intro c hc
    have hcnb : ¬ c ∈ bookkeepingCols := by
      rcases List.mem_filter.mp hc with ⟨_, h2⟩
      simpa using h2
    have hcne : ¬ ("hc_cluster" = c) := by
      intro h
      exact hcnb (h ▸ (by simp [bookkeepingCols]))
    rw [hkeycol]
    unfold compute_cluster_means DF.col
    simp only [lookupCol, if_neg hcne]
    rw [lookupCol_tagged, if_pos hc]
    simp only [Option.getD_some]
    apply List.map_congr_left
    intro k hk
    rw [sumCountFor_eq_filter]
    rfl

/-- C4 witness: the specification instantiated at a concrete frame with
cluster ids `[1, 0, 1]`, a bookkeeping column and one feature column. -/
theorem compute_cluster_means_spec_witness :
    List.Sorted (· < ·) ((compute_cluster_means dfW).col "hc_cluster") ∧
    (∀ k : ℚ, k ∈ (compute_cluster_means dfW).col "hc_cluster" ↔
        k ∈ dfW.col "hc_cluster") ∧
    ((compute_cluster_means dfW).colNames
        = "hc_cluster" :: dfW.colNames.filter (fun c => ¬ c ∈ bookkeepingCols)) ∧
    (∀ b ∈ bookkeepingCols, b ≠ "hc_cluster" →
        ¬ b ∈ (compute_cluster_means dfW).colNames) ∧
    (∀ c ∈ dfW.colNames.filter (fun c => ¬ c ∈ bookkeepingCols),
      (compute_cluster_means dfW).col c =
        ((compute_cluster_means dfW).col "hc_cluster").map (fun k =>
          listMean ((((dfW.col "hc_cluster").zip (dfW.col c)).filter
            (fun p => p.1 = k)).map Prod.snd))) :=
  compute_cluster_means_spec dfW

/-! ## C10 : the U-Matrix palette index -/

theorem foldl_min_le_init (l : List ℚ) (a : ℚ) : l.foldl min a ≤ a := by
  induction l generalizing a with
  | nil => simp
  | cons x t ih =>
    simp only [List.foldl_cons]
    exact le_trans (ih (min a x)) (min_le_left a x)

theorem foldl_min_le_mem (l : List ℚ) (a x : ℚ) (hx : x ∈ l) : l.foldl min a ≤ x := by
  induction l generalizing a with
  | nil => simp at hx
  | cons y t ih =>
    simp only [List.foldl_cons]
    rcases List.mem_cons.mp hx with h | h
    · subst h
      exact le_trans (foldl_min_le_init t _) (min_le_right a x)
    · exact ih _ h

theorem init_le_foldl_max (l : List ℚ) (a : ℚ) : a ≤ l.foldl max a := by
  induction l generalizing a with
  | nil => simp
  | cons x t ih =>
    simp only [List.foldl_cons]
    exact le_trans (le_max_left a x) (ih (max a x))

theorem mem_le_foldl_max (l : List ℚ) (a x : ℚ) (hx : x ∈ l) : x ≤ l.foldl max a := by
  induction l generalizing a with
  | nil => simp at hx
  | cons y t ih =>
    simp only [List.foldl_cons]
    rcases List.mem_cons.mp hx with h | h
    · subst h
      exact le_trans (le_max_right a x) (init_le_foldl_max t _)
    · exact ih _ h

theorem listMin_le (l : List ℚ) (x : ℚ) (hx : x ∈ l) : listMin l ≤ x := by
  cases l with
  | nil => simp at hx
  | cons h t =>
    rw [show listMin (h :: t) = t.foldl min h from rfl]
    rcases List.mem_cons.mp hx with hh | hh
    · subst hh; exact foldl_min_le_init t x
    · exact foldl_min_le_mem t h x hh

theorem le_listMax (l : List ℚ) (x : ℚ) (hx : x ∈ l) : x ≤ listMax l := by
  cases l with
  | nil => simp at hx
  | cons h t =>
    rw [show listMax (h :: t) = t.foldl max h from rfl]
    rcases List.mem_cons.mp hx with hh | hh
    · subst hh; exact init_le_foldl_max t x
    · exact mem_le_foldl_max t h x hh

theorem foldl_min_mem (l : List ℚ) (a : ℚ) :
    l.foldl min a = a ∨ l.foldl min a ∈ l := by
  induction l generalizing a with
  | nil => left; rfl
  | cons x t ih =>
    simp only [List.foldl_cons]
    rcases ih (min a x) with h | h
    · rcases le_total a x with hax | hax
      · left; rw [h, min_eq_left hax]
      · right; rw [h, min_eq_right hax]; exact List.mem_cons_self x t
    · right; exact List.mem_cons_of_mem x h

theorem foldl_max_mem (l : List ℚ) (a : ℚ) :
    l.foldl max a = a ∨ l.foldl max a ∈ l := by
  induction l generalizing a with
  | nil => left; rfl
  | cons x t ih =>
    simp only [List.foldl_cons]
    rcases ih (max a x) with h | h
    · rcases le_total a x with hax | hax
      · right; rw [h, max_eq_right hax]; exact List.mem_cons_self x t
      · left; rw [h, max_eq_left hax]
    · right; exact List.mem_cons_of_mem x h

theorem listMin_mem (l : List ℚ) (hne : l ≠ []) : listMin l ∈ l := by
  cases l with
  | nil => exact absurd rfl hne
  | cons h t =>
    rw [show listMin (h :: t) = t.foldl min h from rfl]
    rcases foldl_min_mem t h with hh | hh
    · rw [hh]; exact List.mem_cons_self h t
    · exact List.mem_cons_of_mem h hh

theorem listMax_mem (l : List ℚ) (hne : l ≠ []) : listMax l ∈ l := by
  cases l with
  | nil => exact absurd rfl hne
  | cons h t =>
    rw [show listMax (h :: t) = t.foldl max h from rfl]
    rcases foldl_max_mem t h with hh | hh
    · rw [hh]; exact List.mem_cons_self h t
    · exact List.mem_cons_of_mem h hh

/-- C10: for every node distance `d` in the flattened U-Matrix, when the
U-Matrix contains at least two distinct values (equivalently
`um_min < um_max`) the palette index
`int((d - um_min)/(um_max - um_min)*255)` is defined and lies within
`[0, 255]`, so indexing the 256-entry Viridis palette is in bounds; when
all values are equal, the expression divides by zero and the `u_color`
computation is undefined. -/
theorem umNormIdx_inbounds (umFlat : List ℚ) (d : ℚ) (hd : d ∈ umFlat) :
    (listMin umFlat < listMax umFlat →
      ∃ k : ℤ, umNormIdx umFlat d = some k ∧ 0 ≤ k ∧ k ≤ 255 ∧ k.toNat < 256) ∧
    (listMax umFlat = listMin umFlat → umNormIdx umFlat d = none) ∧
    ((∃ a ∈ umFlat, ∃ b ∈ umFlat, a ≠ b) ↔ listMin umFlat < listMax umFlat) := by
  have hne : umFlat ≠ [] := by
    intro h; rw [h] at hd; simp at hd
  refine ⟨?_, ?_, ?_⟩
  · intro hlt
    have hden : (0 : ℚ) < listMax umFlat - listMin umFlat := sub_pos.mpr hlt
    have hq0 : (0 : ℚ) ≤ (d - listMin umFlat) / (listMax umFlat - listMin umFlat) * 255 := by
      apply mul_nonneg
      · exact div_nonneg (sub_nonneg.mpr (listMin_le _ _ hd)) (le_of_lt hden)
      · norm_num
    have hq255 : (d - listMin umFlat) / (listMax umFlat - listMin umFlat) * 255 ≤ 255 := by
      have h1 : (d - listMin umFlat) / (listMax umFlat - listMin umFlat) ≤ 1 :=
        (div_le_one hden).mpr (sub_le_sub_right (le_listMax _ _ hd) _)
      calc (d - listMin umFlat) / (listMax umFlat - listMin umFlat) * 255
          ≤ 1 * 255 := mul_le_mul_of_nonneg_right h1 (by norm_num)
        _ = 255 := one_mul 255
    refine ⟨pyInt ((d - listMin umFlat) / (listMax umFlat - listMin umFlat) * 255),
      ?_, ?_, ?_, ?_⟩
    · unfold umNormIdx
      rw [if_neg (ne_of_gt hden)]
    · unfold pyInt
      rw [if_pos hq0]
      exact Int.floor_nonneg.mpr hq0
    · unfold pyInt
      rw [if_pos hq0]
      have := Int.floor_le_floor hq255
      simpa using this
    · have h0 : 0 ≤ pyInt ((d - listMin umFlat) / (listMax umFlat - listMin umFlat) * 255) := by
        unfold pyInt
        rw [if_pos hq0]
        exact Int.floor_nonneg.mpr hq0
      have h255 : pyInt ((d - listMin umFlat) / (listMax umFlat - listMin umFlat) * 255) ≤ 255 := by
        unfold pyInt
        rw [if_pos hq0]
        have := Int.floor_le_floor hq255
        simpa using this
      omega
  · intro heq
    unfold umNormIdx
    rw [if_pos (by rw [heq, sub_self])]
  · constructor
    · rintro ⟨a, ha, b, hb, hab⟩
      rcases lt_or_gt_of_ne hab with h | h
      · exact lt_of_le_of_lt (listMin_le _ _ ha) (lt_of_lt_of_le h (le_listMax _ _ hb))
      · exact lt_of_le_of_lt (listMin_le _ _ hb) (lt_of_lt_of_le h (le_listMax _ _ ha))
    · intro h
      exact ⟨listMin umFlat, listMin_mem _ hne, listMax umFlat, listMax_mem _ hne,
        ne_of_lt h⟩

/-- C10 witness: the U-Matrix `[0, 1]` at distance `0`. -/
theorem umNormIdx_inbounds_witness :
    ((0 : ℚ) ∈ [(0 : ℚ), 1]) ∧
    (∃ k : ℤ, umNormIdx [(0 : ℚ), 1] 0 = some k ∧ 0 ≤ k ∧ k ≤ 255 ∧ k.toNat < 256) :=
  ⟨by decide, (umNormIdx_inbounds [(0 : ℚ), 1] 0 (by decide)).1 (by decide)⟩

/-! ## C2 : the duplicated node clustering -/

/-- C2 counterexample: when some of the five clusters receive no
observation, `build_hex_plot` re-clusters the nodes with
`n_clusters = max(hc_cluster) + 1 = 1` and shows every node as cluster `0`,
while `assign_clusters` used the five-cluster node labels `[0,1,2,3,4,4]`:
the cluster label shown in the hex view differs from the label used for
observation assignment (here at node (0, 1) among others), so a single
node-cluster mapping is not computed once and consumed by every view. -/
theorem build_hex_plot_labels_diverge :
    build_hex_plot_nodes hcFitEx somEx (assign_clusters hcFitEx somEx dataEx 5) ≠
      nodesWithLabels somEx (assign_node_labels hcFitEx somEx 5) := by decide

/-! ## C7 : the U-Matrix toggle -/

/-- C7: toggling the U-Matrix view on then off restores the active color
field of every node to its original cluster colors exactly; no application
of the toggle alters any selection state; each single toggle sets
`display_color` to the precomputed `u_color` array when activating and to
the precomputed `color` array when deactivating, and swaps the two legend
visibilities. -/
theorem umToggleChange_spec (st : HexPlotState) (hinit : st.displayColor = st.color) :
    (umToggleChange false (umToggleChange true st)).displayColor = st.displayColor ∧
    (∀ b : Bool, ∀ st' : HexPlotState, (umToggleChange b st').sel = st'.sel) ∧
    (∀ b : Bool, ∀ st' : HexPlotState,
      (umToggleChange b st').displayColor = if b then st'.uColor else st'.color) ∧
    (∀ b : Bool, ∀ st' : HexPlotState,
      (umToggleChange b st').barCVisible = !b ∧ (umToggleChange b st').barUVisible = b) := by
  refine ⟨?_, ?_, ?_, ?_⟩
  · simp [umToggleChange, hinit]
  · intro b st'; rfl
  · intro b st'; cases b <;> rfl
  · intro b st'; exact ⟨rfl, rfl⟩

/-- C7 witness: the toggle round trip on a concrete display state. -/
theorem umToggleChange_spec_witness :
    (hexStW.displayColor = hexStW.color) ∧
    ((umToggleChange false (umToggleChange true hexStW)).displayColor
        = hexStW.displayColor ∧
      (∀ b : Bool, ∀ st' : HexPlotState, (umToggleChange b st').sel = st'.sel) ∧
      (∀ b : Bool, ∀ st' : HexPlotState,
        (umToggleChange b st').displayColor = if b then st'.uColor else st'.color) ∧
      (∀ b : Bool, ∀ st' : HexPlotState,
        (umToggleChange b st').barCVisible = !b ∧ (umToggleChange b st').barUVisible = b)) :=
  ⟨rfl, umToggleChange_spec hexStW rfl⟩

/-! ## C5, C6, C8 : the selection-sync callbacks -/

theorem list_eq_single_iff (l : List ℕ) (a : ℕ) :
    (l.length = 1 ∧ l.getD 0 0 = a) ↔ l = [a] := by
  cases l with
  | nil => simp
  | cons x t =>
    cases t with
    | nil => simp [List.getD]
    | cons y u => simp

/-- C5 (amended): clicking cluster button `cl` clears all three selections
when the table selection is exactly row `cl`, and otherwise selects exactly
the hex rows with cluster `cl`, the map rows with cluster `cl`, and table
row `cl`; clicking the button twice in succession leaves all three
selections empty provided the table selection before the first click was
not already exactly row `cl`. -/
theorem clusterButtonClick_spec (hexClusters mapClusters : List ℕ) (cl : ℕ)
    (s : SelState) :
    (s.tableSel = [cl] →
      clusterButtonClick hexClusters mapClusters cl s = ⟨[], [], []⟩) ∧
    (s.tableSel ≠ [cl] →
      (∀ j : ℕ, j ∈ (clusterButtonClick hexClusters mapClusters cl s).hexSel ↔
          (j < hexClusters.length ∧ hexClusters.getD j 0 = cl)) ∧
      (∀ j : ℕ, j ∈ (clusterButtonClick hexClusters mapClusters cl s).mapSel ↔
          (j < mapClusters.length ∧ mapClusters.getD j 0 = cl)) ∧
      (clusterButtonClick hexClusters mapClusters cl s).tableSel = [cl]) ∧
    (s.tableSel ≠ [cl] →
      clusterButtonClick hexClusters mapClusters cl
        (clusterButtonClick hexClusters mapClusters cl s) = ⟨[], [], []⟩) := by
  have hfirst : ∀ s' : SelState, s'.tableSel = [cl] →
      clusterButtonClick hexClusters mapClusters cl s' = ⟨[], [], []⟩ := by
    intro s' h'
    unfold clusterButtonClick
    rw [if_pos ((list_eq_single_iff s'.tableSel cl).mpr h')]
  have hsel : ∀ s' : SelState, s'.tableSel ≠ [cl] →
      (clusterButtonClick hexClusters mapClusters cl s')
        = ⟨(List.range hexClusters.length).filter (fun j => hexClusters.getD j 0 = cl),
            (List.range mapClusters.length).filter (fun j => mapClusters.getD j 0 = cl),
            [cl]⟩ := by
    intro s' h'
    unfold clusterButtonClick
    rw [if_neg (fun hc => h' ((list_eq_single_iff s'.tableSel cl).mp hc))]
  refine ⟨hfirst s, ?_, ?_⟩
  · intro h
    rw [hsel s h]
    refine ⟨?_, ?_, rfl⟩
    · intro j
      simp [List.mem_filter, List.mem_range]
    · intro j
      simp [List.mem_filter, List.mem_range]
  · intro h
    apply hfirst
    rw [hsel s h]

/-- C5 counterexample: starting from a state whose table selection is
already exactly row 0, clicking cluster button 0 twice does not leave the
selections empty — the first click toggles off and the second re-selects
cluster 0. -/
theorem clusterButtonClick_double_counterexample :
    clusterButtonClick [0] [0] 0 (clusterButtonClick [0] [0] 0 ⟨[], [], [0]⟩) ≠
      ⟨[], [], []⟩ := by decide

/-- C5 witness: from the empty selection state, clicking button 1 twice on
a two-node, two-region layout empties every selection. -/
theorem clusterButtonClick_spec_witness :
    ((SelState.mk [] [] []).tableSel ≠ [1]) ∧
    clusterButtonClick [0, 1] [1, 1] 1
        (clusterButtonClick [0, 1] [1, 1] 1 ⟨[], [], []⟩) = ⟨[], [], []⟩ :=
  ⟨by decide, (clusterButtonClick_spec [0, 1] [1, 1] 1 ⟨[], [], []⟩).2.2 (by decide)⟩

/-- C6: with the skip flag not set, the hex selection-change handler (i) on
a single newly selected node different from the last one selects in the
map exactly the regions whose BMU coordinates equal the coordinates of
that node and selects the cluster row of the node in the table, (ii) on a
second selection of the last selected node clears all three selections and
arms the one-shot skip flag, and (iii) on an empty selection clears the
map and table selections. -/
theorem hexSelChange_spec (ctx : LinkCtx) (s : LinkState)
    (hskip : s.hexSkip = false) :
    (∀ idx : ℕ, s.hexSel = [idx] → s.hexLast ≠ some idx →
      ((∀ i : ℕ, i ∈ (hexSelChange ctx s).mapSel ↔
          (i < ctx.mapBmuX.length ∧
            ctx.mapBmuX.getD i 0 = ctx.hexBmuX.getD idx 0 ∧
            ctx.mapBmuY.getD i 0 = ctx.hexBmuY.getD idx 0)) ∧
        (hexSelChange ctx s).tableSel = [ctx.hexClusters.getD idx 0])) ∧
    (∀ idx : ℕ, s.hexSel = [idx] → s.hexLast = some idx →
      ((hexSelChange ctx s).hexSel = [] ∧ (hexSelChange ctx s).mapSel = [] ∧
        (hexSelChange ctx s).tableSel = [] ∧ (hexSelChange ctx s).hexSkip = true)) ∧
    (s.hexSel = [] →
      ((hexSelChange ctx s).mapSel = [] ∧ (hexSelChange ctx s).tableSel = [])) := by
  refine ⟨?_, ?_, ?_⟩
  · intro idx h hlast
    unfold hexSelChange
    rw [h]
    simp only [hskip, Bool.false_eq_true, if_false, List.length_cons,
      List.length_nil, List.getD_cons_zero, hlast, and_false, if_false]
    constructor
    · intro i
      simp [List.mem_filter, List.mem_range]
    · rfl
  · intro idx h hlast
    unfold hexSelChange
    rw [h]
    simp only [hskip, Bool.false_eq_true, if_false, List.length_cons,
      List.length_nil, List.getD_cons_zero, hlast]
    simp
  · intro h
    unfold hexSelChange
    rw [h]
    simp [hskip]

/-- C6 witness: the hex handler on `ctxW`/`stW` selects region 0 (matching
BMU) and table row 3. -/
theorem hexSelChange_spec_witness :
    (stW.hexSkip = false) ∧ (stW.hexSel = [0]) ∧ (stW.hexLast ≠ some 0) ∧
    ((∀ i : ℕ, i ∈ (hexSelChange ctxW stW).mapSel ↔
        (i < ctxW.mapBmuX.length ∧
          ctxW.mapBmuX.getD i 0 = ctxW.hexBmuX.getD 0 0 ∧
          ctxW.mapBmuY.getD i 0 = ctxW.hexBmuY.getD 0 0)) ∧
      (hexSelChange ctxW stW).tableSel = [ctxW.hexClusters.getD 0 0]) :=
  ⟨rfl, rfl, by decide,
    (hexSelChange_spec ctxW stW rfl).1 0 rfl (by decide)⟩

/-- C8: a selection-change event in the hex view or in the map view in
which more than one index is selected is a no-op for the dependent views:
the handler (a total function, so it terminates without error) leaves the
selections of the other chart and of the table, and its own selection,
unchanged. -/
theorem multiSelect_noop (ctx : LinkCtx) (s : LinkState) :
    (2 ≤ s.hexSel.length →
      ((hexSelChange ctx s).hexSel = s.hexSel ∧
        (hexSelChange ctx s).mapSel = s.mapSel ∧
        (hexSelChange ctx s).tableSel = s.tableSel)) ∧
    (2 ≤ s.mapSel.length →
      ((mapSelChange ctx s).mapSel = s.mapSel ∧
        (mapSelChange ctx s).hexSel = s.hexSel ∧
        (mapSelChange ctx s).tableSel = s.tableSel)) := by
  constructor
  · intro hlen
    have h1 : ¬ (s.hexSel.length = 1) := by omega
    have h0 : ¬ (s.hexSel.length = 0) := by omega
    unfold hexSelChange
    by_cases hskip : s.hexSkip
    · rw [if_pos hskip]
      exact ⟨rfl, rfl, rfl⟩
    · rw [if_neg hskip, if_neg (fun hc => h1 hc.1), if_neg h0, if_neg h1]
      exact ⟨rfl, rfl, rfl⟩
  · intro hlen
    have h1 : ¬ (s.mapSel.length = 1) := by omega
    have h0 : ¬ (s.mapSel.length = 0) := by omega
    unfold mapSelChange
    by_cases hskip : s.mapSkip
    · rw [if_pos hskip]
      exact ⟨rfl, rfl, rfl⟩
    · rw [if_neg hskip, if_neg (fun hc => h1 hc.1), if_neg h0, if_neg h1]
      exact ⟨rfl, rfl, rfl⟩

/-- C8 witness: both handlers ignore the two-element selections of
`stMulti`. -/
theorem multiSelect_noop_witness :
    (2 ≤ stMulti.hexSel.length) ∧ (2 ≤ stMulti.mapSel.length) ∧
    ((hexSelChange ctxW stMulti).hexSel = stMulti.hexSel ∧
      (hexSelChange ctxW stMulti).mapSel = stMulti.mapSel ∧
      (hexSelChange ctxW stMulti).tableSel = stMulti.tableSel) ∧
    ((mapSelChange ctxW stMulti).mapSel = stMulti.mapSel ∧
      (mapSelChange ctxW stMulti).hexSel = stMulti.hexSel ∧
      (mapSelChange ctxW stMulti).tableSel = stMulti.tableSel) :=
  ⟨by decide, by decide,
    (multiSelect_noop ctxW stMulti).1 (by decide),
    (multiSelect_noop ctxW stMulti).2 (by decide)⟩
